import Mathlib

/-!
Verification development for the SteeleLab VNA (client orchestrator, SoC TCP
server, DMA producer thread, MMIO register adapter).

The Python sources are embedded shallowly:

* the MMIO adapter (`server/data_processing.py`, class `PLInterface`) becomes
  pure functions over a register file `Regs = ℕ → ℕ` holding 32-bit words;
  Python's arbitrary-precision two's-complement bitwise operators are encoded
  on `ℕ`/`ℤ` (see `pyAndNot`, `pyShlAnd`), and Python's `round` (banker's
  rounding) becomes `pyRound : ℚ → ℤ` over exact rationals;
* the client's sweep collection loop (`client/application/api.py`, `_fsweep`)
  becomes a recursion over the list of TCP data packets;
* `run`'s generator/flag discipline becomes a trace of events;
* the producer thread (`DataQueue.keep_fetching`) and the server's
  `start_dma`/`pause_dma` become a two-thread interleaved transition system
  driven by an explicit schedule.
-/

namespace SLVNA

/-- Fuel-driven helper for `bitLen`; `bitLenAux fuel n` counts binary digits of
`n` as long as `n ≤ fuel`. -/
def bitLenAux : ℕ → ℕ → ℕ
  | 0, _ => 0
  | fuel + 1, n => if n = 0 then 0 else bitLenAux fuel (n / 2) + 1

/-- Number of binary digits of `n`, i.e. Python's `int.bit_length()` for a
nonnegative argument (0 for 0, otherwise ⌊log2 n⌋ + 1). Structural recursion on
a fuel argument so that the kernel can evaluate it. -/
def bitLen (n : ℕ) : ℕ := bitLenAux n n

/-- Models the bithack `(mask & -mask).bit_length() - 1` of
`PLInterface._resolve_field` (data_processing.py:147), which computes the
number of trailing zero bits of `mask`. Python integers are two's complement
with infinite width; for `0 < mask < 2^32` the low 32 bits of `-mask` are
`2^32 - mask`, and `mask & -mask` isolates the lowest set bit, so the `ℕ`
expression below agrees with the Python one on every mask of the field
dictionary. -/
def trailingZeros (mask : ℕ) : ℕ := bitLen (mask &&& (2 ^ 32 - mask)) - 1

/-- Models Python's built-in `round` on an exact rational: round half to even
(banker's rounding), as used by `PLInterface.write_mmio`
(data_processing.py:157). -/
def pyRound (q : ℚ) : ℤ :=
  if Int.fract q < 1 / 2 then ⌊q⌋
  else if 1 / 2 < Int.fract q then ⌊q⌋ + 1
  else if ⌊q⌋ % 2 = 0 then ⌊q⌋ else ⌊q⌋ + 1

/-- One entry of `PLConfig.MMIO_FIELD_DICT` (protocol.py:95-136): scale factor,
index of the target MMIO register, and bit mask of the field inside that
32-bit register. -/
structure MMIOField where
  scale : ℚ
  mmio : ℕ
  mask : ℕ
deriving DecidableEq

/-- The entries of `PLConfig.MMIO_FIELD_DICT` (protocol.py:95-136), in source
order: TPP `p`, DEAD_TIME `g`, TRIG_LEN `t` (scale `FCLK = 125` each),
TRIG_0_CONF `c`, TRIG_1_CONF `o`, PPT `a` (scale 1), IF_MULT `i`
(scale `256 / FCLK`), RUN_PL `r`. Register indices: 0 = MMIO_DEAD_TIME,
1 = MMIO_TPP, 2 = MMIO_TRIG, 3 = MMIO_GENERAL. -/
def MMIO_FIELD_LIST : List (Char × MMIOField) :=
  [('p', ⟨125, 1, 0xFFFFFFFF⟩),
   ('g', ⟨125, 0, 0xFFFFFFFF⟩),
   ('t', ⟨125, 2, 0x00FFFFFF⟩),
   ('c', ⟨1, 2, 0x0F000000⟩),
   ('o', ⟨1, 2, 0xF0000000⟩),
   ('a', ⟨1, 3, 0xFFFF0000⟩),
   ('i', ⟨256 / 125, 3, 0x0000FF00⟩),
   ('r', ⟨1, 3, 0x00000001⟩)]

/-- Lookup in `MMIO_FIELD_DICT` by command token, `none` meaning the `KeyError`
of `PLInterface._resolve_field` (data_processing.py:140-142). -/
def MMIO_FIELD_DICT (cmd : Char) : Option MMIOField :=
  (MMIO_FIELD_LIST.find? fun kv => kv.1 == cmd).map Prod.snd

/-- The register file: contents of the 32-bit MMIO registers, by register
index. -/
def Regs : Type := ℕ → ℕ

/-- Python's `x & ~mask` for a 32-bit register value `x` and a mask below
`2^32`: in two's complement `~mask` has every bit set except those of `mask`,
so on values below `2^32` it acts like xor with `2^32 - 1`. -/
def pyAndNot (x mask : ℕ) : ℕ := x &&& ((2 ^ 32 - 1) ^^^ mask)

/-- Python's `(scaled << shift) & mask` where `scaled` may be negative (two's
complement, infinite width) and `mask < 2^32`: only the low 32 bits can meet
`mask`, and the low 32 bits of any Python integer are its value mod `2^32`
(`Int.emod` is nonnegative for a positive modulus). -/
def pyShlAnd (scaled : ℤ) (shift mask : ℕ) : ℕ :=
  ((scaled * 2 ^ shift) % (2 ^ 32 : ℤ)).toNat &&& mask

/-- Models `PLInterface.write_mmio` (data_processing.py:150-165) together with
`_resolve_field` (137-148). `none` models an exception: `KeyError` when the
command is not in the dictionary, `ValueError` when the scaled value is too
large for the field. Otherwise the target register is updated to
`(curr & ~mask) | ((scaled << shift) & mask)` and every other register is
untouched. -/
def write_mmio (regs : Regs) (cmd : Char) (value : ℚ) : Option Regs :=
  match MMIO_FIELD_DICT cmd with
  | none => none
  | some field =>
    let bitshift := trailingZeros field.mask
    let scaled := pyRound (value * field.scale)
    if ((field.mask >>> bitshift : ℕ) : ℤ) < scaled then none
    else
      let curr := regs field.mmio
      let new := pyAndNot curr field.mask ||| pyShlAnd scaled bitshift field.mask
      some fun i => if i = field.mmio then new else regs i

/-- Models `PLInterface.read_mmio` (data_processing.py:167-177): extract the
field `(curr & mask) >> shift` and divide by the scale. `none` models the
`KeyError` of `_resolve_field`. -/
def read_mmio (regs : Regs) (cmd : Char) : Option ℚ :=
  match MMIO_FIELD_DICT cmd with
  | none => none
  | some field =>
    let bitshift := trailingZeros field.mask
    some ((((regs field.mmio &&& field.mask) >>> bitshift : ℕ) : ℚ) / field.scale)

/-- Shift of a field: number of trailing zeros of its mask. -/
def maskShift (f : MMIOField) : ℕ := trailingZeros f.mask

/-- Width of a field: number of bits of its mask above the trailing zeros. -/
def maskWidth (f : MMIOField) : ℕ := bitLen (f.mask >>> maskShift f)

lemma mmio_field_mem (cmd : Char) (f : MMIOField) (h : MMIO_FIELD_DICT cmd = some f) :
    (cmd, f) ∈ MMIO_FIELD_LIST := by
  unfold MMIO_FIELD_DICT at h
  cases hf : MMIO_FIELD_LIST.find? fun kv => kv.1 == cmd with
  | none => rw [hf] at h; exact Option.noConfusion h
  | some kv =>
    have hm := List.mem_of_find?_eq_some hf
    have hp := List.find?_some hf
    rw [hf] at h
    have h2 : kv.2 = f := Option.some.inj h
    have hp' : (kv.1 == cmd) = true := hp
    have h1 : kv.1 = cmd := eq_of_beq hp'
    have : kv = (cmd, f) := by
      cases kv with
      | mk a b => simp only [Prod.mk.injEq]; exact ⟨h1, h2⟩
    rwa [this] at hm

/-- Every field of the dictionary has a positive scale and a contiguous mask:
`mask = (2^w - 1) · 2^s` with the field entirely inside the 32-bit register,
where `s`/`w` are its computed shift and width. -/
lemma mmio_field_shape (cmd : Char) (f : MMIOField) (h : MMIO_FIELD_DICT cmd = some f) :
    0 < f.scale ∧ f.mask = (2 ^ maskWidth f - 1) * 2 ^ maskShift f ∧
      maskShift f + maskWidth f ≤ 32 ∧ f.mask < 2 ^ 32 := by
  have hm := mmio_field_mem cmd f h
  simp only [MMIO_FIELD_LIST, List.mem_cons, List.not_mem_nil, or_false,
    Prod.mk.injEq] at hm
  rcases hm with hk | hk | hk | hk | hk | hk | hk | hk <;> obtain ⟨-, rfl⟩ := hk <;>
    exact ⟨by norm_num, by decide, by decide, by decide⟩

/-- The computed shift really is the number of trailing zeros of the mask, for
every field of the dictionary. -/
lemma mmio_field_trailing (cmd : Char) (f : MMIOField) (h : MMIO_FIELD_DICT cmd = some f) :
    2 ^ trailingZeros f.mask ∣ f.mask ∧ ¬ 2 ^ (trailingZeros f.mask + 1) ∣ f.mask := by
  have hm := mmio_field_mem cmd f h
  simp only [MMIO_FIELD_LIST, List.mem_cons, List.not_mem_nil, or_false,
    Prod.mk.injEq] at hm
  rcases hm with hk | hk | hk | hk | hk | hk | hk | hk <;> obtain ⟨-, rfl⟩ := hk <;>
    exact ⟨by decide, by decide⟩

lemma testBit_write (curr mask b i : ℕ) (hm : mask.testBit i = false) (hc : curr < 2 ^ 32) :
    (pyAndNot curr mask ||| (b &&& mask)).testBit i = curr.testBit i := by
  unfold pyAndNot
  rw [Nat.testBit_or, Nat.testBit_and, Nat.testBit_and, Nat.testBit_xor,
    Nat.testBit_two_pow_sub_one, hm]
  by_cases hi : i < 32
  · simp [hi]
  · have hcu : curr.testBit i = false :=
      Nat.testBit_lt_two_pow
        (lt_of_lt_of_le hc (Nat.pow_le_pow_right (by norm_num) (le_of_not_lt hi)))
    simp [hi, hcu]

lemma write_mmio_eq_none_iff (regs : Regs) (cmd : Char) (value : ℚ) (f : MMIOField)
    (hf : MMIO_FIELD_DICT cmd = some f) :
    write_mmio regs cmd value = none ↔
      ((f.mask >>> trailingZeros f.mask : ℕ) : ℤ) < pyRound (value * f.scale) := by
  unfold write_mmio
  rw [hf]
  dsimp only
  split
  · exact iff_of_true rfl (by assumption)
  · exact iff_of_false (Option.some_ne_none _) (by assumption)

lemma write_mmio_eq_some (regs : Regs) (cmd : Char) (value : ℚ) (f : MMIOField)
    (hf : MMIO_FIELD_DICT cmd = some f)
    (hle : pyRound (value * f.scale) ≤ ((f.mask >>> trailingZeros f.mask : ℕ) : ℤ)) :
    write_mmio regs cmd value = some fun i =>
      if i = f.mmio then
        pyAndNot (regs f.mmio) f.mask |||
          pyShlAnd (pyRound (value * f.scale)) (trailingZeros f.mask) f.mask
      else regs i := by
  unfold write_mmio
  rw [hf]
  dsimp only
  rw [if_neg (not_lt.mpr hle)]

/-- C2: for every command token in the MMIO field dictionary, `write_mmio`
computes shift = trailing zeros of the mask and `scaled = round(v·scale)`,
fails exactly when `scaled > mask >> shift`, and otherwise replaces the target
register by `(curr & ~mask) | ((scaled << shift) & mask)`, leaving every bit
outside the mask — and every other register — unchanged. -/
theorem write_mmio_spec (cmd : Char) (f : MMIOField) (hf : MMIO_FIELD_DICT cmd = some f)
    (regs : Regs) (hcurr : regs f.mmio < 2 ^ 32) (value : ℚ) :
    (2 ^ trailingZeros f.mask ∣ f.mask ∧ ¬ 2 ^ (trailingZeros f.mask + 1) ∣ f.mask) ∧
    (write_mmio regs cmd value = none ↔
      ((f.mask >>> trailingZeros f.mask : ℕ) : ℤ) < pyRound (value * f.scale)) ∧
    ∀ regs2, write_mmio regs cmd value = some regs2 →
      regs2 f.mmio = pyAndNot (regs f.mmio) f.mask |||
          pyShlAnd (pyRound (value * f.scale)) (trailingZeros f.mask) f.mask ∧
      (∀ i, f.mask.testBit i = false → (regs2 f.mmio).testBit i = (regs f.mmio).testBit i) ∧
      ∀ j, j ≠ f.mmio → regs2 j = regs j := by
  refine ⟨mmio_field_trailing cmd f hf, write_mmio_eq_none_iff regs cmd value f hf, ?_⟩
  intro regs2 h2
  have hle : pyRound (value * f.scale) ≤ ((f.mask >>> trailingZeros f.mask : ℕ) : ℤ) := by
    by_contra hcon
    rw [(write_mmio_eq_none_iff regs cmd value f hf).mpr (lt_of_not_le hcon)] at h2
    exact Option.noConfusion h2
  rw [write_mmio_eq_some regs cmd value f hf hle] at h2
  have h2' := Option.some.inj h2
  subst h2'
  refine ⟨by simp, ?_, ?_⟩
  · intro i hbit
    simp only [if_pos rfl]
    exact testBit_write (regs f.mmio) f.mask _ i hbit hcurr
  · intro j hj
    simp [hj]

/-- Instance of `write_mmio_spec` at the PPT field `a`, value 3, on the
all-zero register file. -/
theorem write_mmio_spec_witness :
    (2 ^ trailingZeros (MMIOField.mk 1 3 0xFFFF0000).mask ∣ (MMIOField.mk 1 3 0xFFFF0000).mask ∧
      ¬ 2 ^ (trailingZeros (MMIOField.mk 1 3 0xFFFF0000).mask + 1) ∣
        (MMIOField.mk 1 3 0xFFFF0000).mask) ∧
    (write_mmio (fun _ => 0) 'a' 3 = none ↔
      (((MMIOField.mk 1 3 0xFFFF0000).mask >>>
          trailingZeros (MMIOField.mk 1 3 0xFFFF0000).mask : ℕ) : ℤ) <
        pyRound (3 * (MMIOField.mk 1 3 0xFFFF0000).scale)) ∧
    ∀ regs2, write_mmio (fun _ => 0) 'a' 3 = some regs2 →
      regs2 (MMIOField.mk 1 3 0xFFFF0000).mmio =
        pyAndNot ((fun _ => 0 : Regs) (MMIOField.mk 1 3 0xFFFF0000).mmio)
            (MMIOField.mk 1 3 0xFFFF0000).mask |||
          pyShlAnd (pyRound (3 * (MMIOField.mk 1 3 0xFFFF0000).scale))
            (trailingZeros (MMIOField.mk 1 3 0xFFFF0000).mask)
            (MMIOField.mk 1 3 0xFFFF0000).mask ∧
      (∀ i, (MMIOField.mk 1 3 0xFFFF0000).mask.testBit i = false →
        (regs2 (MMIOField.mk 1 3 0xFFFF0000).mmio).testBit i =
          ((fun _ => 0 : Regs) (MMIOField.mk 1 3 0xFFFF0000).mmio).testBit i) ∧
      ∀ j, j ≠ (MMIOField.mk 1 3 0xFFFF0000).mmio → regs2 j = (fun _ => 0 : Regs) j :=
  write_mmio_spec 'a' ⟨1, 3, 0xFFFF0000⟩ (by decide) (fun _ => 0) (by decide) 3

lemma pyRound_abs_le (q : ℚ) : |((pyRound q : ℤ) : ℚ) - q| ≤ 1 / 2 := by
  have h0 : 0 ≤ Int.fract q := Int.fract_nonneg q
  have h1 : Int.fract q < 1 := Int.fract_lt_one q
  have hfr : (⌊q⌋ : ℚ) = q - Int.fract q := by rw [Int.fract]; ring
  unfold pyRound
  split_ifs with hlt hgt heven
  · rw [abs_le, hfr]; constructor <;> linarith
  · rw [abs_le]; push_cast; rw [hfr]; constructor <;> linarith
  · have heq : Int.fract q = 1 / 2 := le_antisymm (not_lt.mp hgt) (not_lt.mp hlt)
    rw [abs_le, hfr, heq]; constructor <;> linarith
  · have heq : Int.fract q = 1 / 2 := le_antisymm (not_lt.mp hgt) (not_lt.mp hlt)
    rw [abs_le]; push_cast; rw [hfr, heq]; constructor <;> linarith

lemma pyRound_intCast (z : ℤ) : pyRound ((z : ℚ)) = z := by
  unfold pyRound
  rw [Int.fract_intCast, if_pos (by norm_num), Int.floor_intCast]

lemma pyRound_int (q : ℚ) (h : q.den = 1) : ((pyRound q : ℤ) : ℚ) = q := by
  have hq : ((q.num : ℚ)) = q := by rw [← Rat.den_eq_one_iff]; exact h
  calc ((pyRound q : ℤ) : ℚ) = ((pyRound ((q.num : ℚ)) : ℤ) : ℚ) := by rw [hq]
  _ = ((q.num : ℚ)) := by rw [pyRound_intCast]
  _ = q := hq

lemma and_shl_mask_shr (n w s : ℕ) (hn : n < 2 ^ w) :
    ((n * 2 ^ s) &&& ((2 ^ w - 1) * 2 ^ s)) >>> s = n := by
  apply Nat.eq_of_testBit_eq
  intro i
  rw [Nat.testBit_shiftRight, ← Nat.shiftLeft_eq n s, ← Nat.shiftLeft_eq (2 ^ w - 1) s,
    Nat.testBit_and, Nat.testBit_shiftLeft, Nat.testBit_shiftLeft]
  have hts : s ≤ s + i := Nat.le_add_right s i
  have hsi : s + i - s = i := by omega
  rw [hsi, Nat.testBit_two_pow_sub_one]
  by_cases hi : i < w
  · simp [hts, hi]
  · have hnb : n.testBit i = false :=
      Nat.testBit_lt_two_pow
        (lt_of_lt_of_le hn (Nat.pow_le_pow_right (by norm_num) (le_of_not_lt hi)))
    simp [hts, hi, hnb]

lemma pyAndNot_and_mask (curr mask : ℕ) (hm : mask < 2 ^ 32) :
    pyAndNot curr mask &&& mask = 0 := by
  apply Nat.eq_of_testBit_eq
  intro i
  unfold pyAndNot
  rw [Nat.zero_testBit]
  simp only [Nat.testBit_and, Nat.testBit_xor, Nat.testBit_two_pow_sub_one]
  by_cases hmb : mask.testBit i = true
  · have hi : i < 32 := by
      by_contra hcon
      rw [Nat.testBit_lt_two_pow
        (lt_of_lt_of_le hm (Nat.pow_le_pow_right (by norm_num) (le_of_not_lt hcon)))] at hmb
      exact Bool.noConfusion hmb
    simp [hmb, hi]
  · simp [Bool.not_eq_true] at hmb
    simp [hmb]

lemma and_or_and_right (a b m : ℕ) : (a ||| b) &&& m = (a &&& m) ||| (b &&& m) := by
  apply Nat.eq_of_testBit_eq
  intro i
  simp only [Nat.testBit_and, Nat.testBit_or]
  cases a.testBit i <;> cases b.testBit i <;> cases m.testBit i <;> rfl

lemma and_mask_idem (x m : ℕ) : (x &&& m) &&& m = x &&& m := by
  apply Nat.eq_of_testBit_eq
  intro i
  simp only [Nat.testBit_and]
  cases x.testBit i <;> cases m.testBit i <;> rfl

lemma and_shl_mask_self (n w s : ℕ) (hn : n < 2 ^ w) :
    (n * 2 ^ s) &&& ((2 ^ w - 1) * 2 ^ s) = n * 2 ^ s := by
  apply Nat.eq_of_testBit_eq
  intro i
  rw [← Nat.shiftLeft_eq n s, ← Nat.shiftLeft_eq (2 ^ w - 1) s]
  simp only [Nat.testBit_and, Nat.testBit_shiftLeft, Nat.testBit_two_pow_sub_one]
  by_cases hsi : s ≤ i
  · by_cases hiw : i - s < w
    · simp [ge_iff_le, hsi, hiw]
    · have hnb : n.testBit (i - s) = false :=
        Nat.testBit_lt_two_pow
          (lt_of_lt_of_le hn (Nat.pow_le_pow_right (by norm_num) (le_of_not_lt hiw)))
      simp [ge_iff_le, hsi, hiw, hnb]
  · simp [ge_iff_le, hsi]

lemma pyShlAnd_small (n : ℤ) (s mask : ℕ) (h0 : 0 ≤ n) (hsm : n.toNat * 2 ^ s < 2 ^ 32) :
    pyShlAnd n s mask = (n.toNat * 2 ^ s) &&& mask := by
  unfold pyShlAnd
  have hn : n * 2 ^ s = ((n.toNat * 2 ^ s : ℕ) : ℤ) := by
    push_cast [Int.toNat_of_nonneg h0]; ring
  rw [hn, Int.emod_eq_of_lt (Int.natCast_nonneg _) (by exact_mod_cast hsm)]
  rw [Int.toNat_natCast]

/-- Core of a successful `write_mmio`: the field of the target register now
holds exactly the scaled value (provided it is nonnegative and fits), the
register still fits in 32 bits, and every other register is untouched. -/
lemma write_field_extract (cmd : Char) (f : MMIOField) (hf : MMIO_FIELD_DICT cmd = some f)
    (regs : Regs) (value : ℚ)
    (h0 : 0 ≤ pyRound (value * f.scale))
    (hle : pyRound (value * f.scale) ≤ ((f.mask >>> trailingZeros f.mask : ℕ) : ℤ)) :
    ∃ regs2, write_mmio regs cmd value = some regs2 ∧
      (regs2 f.mmio &&& f.mask) >>> trailingZeros f.mask = (pyRound (value * f.scale)).toNat ∧
      regs2 f.mmio < 2 ^ 32 ∧ ∀ j, j ≠ f.mmio → regs2 j = regs j := by
  obtain ⟨hscale, hmask, hws, hm32⟩ := mmio_field_shape cmd f hf
  have hms : maskShift f = trailingZeros f.mask := rfl
  rw [hms] at hmask hws
  set s := trailingZeros f.mask with hs
  set w := maskWidth f with hw
  set n := (pyRound (value * f.scale)).toNat with hn
  have hshr : f.mask >>> s = 2 ^ w - 1 := by
    rw [hmask, Nat.shiftRight_eq_div_pow]
    exact Nat.mul_div_cancel _ (Nat.pos_pow_of_pos s (by norm_num))
  have hnw : n < 2 ^ w := by
    have h1 : (n : ℤ) ≤ ((f.mask >>> s : ℕ) : ℤ) := by
      rw [hn, Int.toNat_of_nonneg h0]; exact hle
    have h2 : n ≤ f.mask >>> s := by exact_mod_cast h1
    rw [hshr] at h2
    have : 0 < 2 ^ w := Nat.pos_pow_of_pos w (by norm_num)
    omega
  have hn32 : n * 2 ^ s < 2 ^ 32 := by
    calc n * 2 ^ s < 2 ^ w * 2 ^ s :=
          (Nat.mul_lt_mul_right (Nat.pos_pow_of_pos s (by norm_num))).mpr hnw
    _ = 2 ^ (s + w) := by rw [← pow_add, Nat.add_comm]
    _ ≤ 2 ^ 32 := Nat.pow_le_pow_right (by norm_num) hws
  refine ⟨_, write_mmio_eq_some regs cmd value f hf hle, ?_, ?_, ?_⟩
  · simp only [eq_self_iff_true, if_true]
    rw [← hs]
    have hreg : (pyAndNot (regs f.mmio) f.mask |||
        pyShlAnd (pyRound (value * f.scale)) s f.mask) &&& f.mask = n * 2 ^ s := by
      rw [and_or_and_right, pyAndNot_and_mask _ _ hm32,
        pyShlAnd_small _ _ _ h0 hn32, and_mask_idem, Nat.zero_or]
      conv_lhs => rw [hmask]
      exact and_shl_mask_self n w s hnw
    rw [hreg, Nat.shiftRight_eq_div_pow]
    exact Nat.mul_div_cancel _ (Nat.pos_pow_of_pos s (by norm_num))
  · simp only [eq_self_iff_true, if_true]
    have hxor : (2 ^ 32 - 1) ^^^ f.mask < 2 ^ 32 :=
      Nat.bitwise_lt_two_pow (by norm_num) hm32
    have h1 : pyAndNot (regs f.mmio) f.mask < 2 ^ 32 := by
      unfold pyAndNot
      exact lt_of_le_of_lt Nat.and_le_right hxor
    have h2 : pyShlAnd (pyRound (value * f.scale)) (trailingZeros f.mask) f.mask < 2 ^ 32 := by
      unfold pyShlAnd
      exact lt_of_le_of_lt Nat.and_le_right hm32
    exact Nat.bitwise_lt_two_pow h1 h2
  · intro j hj
    simp [hj]

/-- Core of the write/read round trip: a successful `write_mmio` stores
`scaled` in the field and `read_mmio` recovers exactly `scaled / scale`,
provided `scaled` is nonnegative. -/
lemma write_then_read (cmd : Char) (f : MMIOField) (hf : MMIO_FIELD_DICT cmd = some f)
    (regs : Regs) (value : ℚ)
    (h0 : 0 ≤ pyRound (value * f.scale))
    (hle : pyRound (value * f.scale) ≤ ((f.mask >>> trailingZeros f.mask : ℕ) : ℤ)) :
    ∃ regs2, write_mmio regs cmd value = some regs2 ∧
      read_mmio regs2 cmd = some (((pyRound (value * f.scale) : ℤ) : ℚ) / f.scale) := by
  obtain ⟨regs2, hw, hx, -, -⟩ := write_field_extract cmd f hf regs value h0 hle
  refine ⟨regs2, hw, ?_⟩
  unfold read_mmio
  rw [hf]
  dsimp only
  rw [hx]
  have hq : (((pyRound (value * f.scale)).toNat : ℚ)) = ((pyRound (value * f.scale) : ℤ) : ℚ) := by
    rw [← Int.cast_natCast]
    exact congrArg _ (Int.toNat_of_nonneg h0)
  rw [hq]

/-- C3 fails as stated: the PPT field `a` has scale 1 and mask `0xFFFF0000`
(shift 16), and `v = -1` satisfies `round(v·scale) = -1 ≤ mask >> shift`, yet
after `write_mmio` the field holds the two's-complement pattern `0xFFFF` and
`read_mmio` returns 65535, which is not `-1` nor within the scale's rounding
precision 1/2 of it. -/
theorem write_read_mmio_counterexample :
    pyRound ((-1 : ℚ) * (1 : ℚ)) ≤ (((0xFFFF0000 : ℕ) >>> trailingZeros 0xFFFF0000 : ℕ) : ℤ) ∧
    ∃ regs2, write_mmio (fun _ => 0) 'a' (-1) = some regs2 ∧
      read_mmio regs2 'a' = some 65535 ∧ (65535 : ℚ) ≠ -1 ∧
      ¬ (|(65535 : ℚ) - (-1)| ≤ 1 / 2) := by
  have hm1 : ((-1 : ℚ) * (1 : ℚ)) = (((-1 : ℤ) : ℚ)) := by norm_num
  have hpr : pyRound ((-1 : ℚ) * (1 : ℚ)) = -1 := by rw [hm1, pyRound_intCast]
  refine ⟨by rw [hpr]; decide, ?_⟩
  have hf : MMIO_FIELD_DICT 'a' = some ⟨1, 3, 0xFFFF0000⟩ := by decide
  have hle : pyRound ((-1 : ℚ) * (MMIOField.mk 1 3 0xFFFF0000).scale) ≤
      (((MMIOField.mk 1 3 0xFFFF0000).mask >>>
        trailingZeros (MMIOField.mk 1 3 0xFFFF0000).mask : ℕ) : ℤ) := by
    show pyRound ((-1 : ℚ) * (1 : ℚ)) ≤ _
    rw [hpr]; decide
  refine ⟨_, write_mmio_eq_some (fun _ => 0) 'a' (-1) ⟨1, 3, 0xFFFF0000⟩ hf hle, ?_, ?_, ?_⟩
  · unfold read_mmio
    rw [hf]
    dsimp only
    rw [if_pos rfl]
    have hnew : pyAndNot ((fun _ => 0 : Regs) 3) (0xFFFF0000 : ℕ) |||
        pyShlAnd (pyRound ((-1 : ℚ) * (1 : ℚ))) (trailingZeros (0xFFFF0000 : ℕ))
          (0xFFFF0000 : ℕ) = 0xFFFF0000 := by
      rw [hpr]; decide
    rw [hnew]
    have ha : ((4294901760 : ℕ) &&& 4294901760) = 4294901760 := by decide
    have h65 : (4294901760 : ℕ) >>> trailingZeros (4294901760 : ℕ) = 65535 := by decide
    rw [ha, h65]
    norm_num
  · norm_num
  · rw [abs_le]; push_neg; intro hcon; linarith

/-- C3 amended: the round trip `write_mmio` then `read_mmio` returns `v`
within the rounding precision `1/(2·scale)` of the field's scale — and exactly
`v` when the scale is an integer and `v·scale` is an integer — provided the
scaled value is nonnegative as well as at most `mask >> shift` (the code
accepts negative scaled values but then stores a wrapped bit pattern, see the
counterexample). -/
theorem write_read_mmio_spec (cmd : Char) (f : MMIOField) (hf : MMIO_FIELD_DICT cmd = some f)
    (regs : Regs) (value : ℚ)
    (h0 : 0 ≤ pyRound (value * f.scale))
    (hle : pyRound (value * f.scale) ≤ ((f.mask >>> trailingZeros f.mask : ℕ) : ℤ)) :
    ∃ regs2 r, write_mmio regs cmd value = some regs2 ∧ read_mmio regs2 cmd = some r ∧
      |r - value| ≤ 1 / (2 * f.scale) ∧
      (f.scale.den = 1 → (value * f.scale).den = 1 → r = value) := by
  obtain ⟨hscale, -, -, -⟩ := mmio_field_shape cmd f hf
  obtain ⟨regs2, hw, hr⟩ := write_then_read cmd f hf regs value h0 hle
  refine ⟨regs2, _, hw, hr, ?_, ?_⟩
  · have hv : value = (value * f.scale) / f.scale := by
      field_simp
    have hsub : ((pyRound (value * f.scale) : ℤ) : ℚ) / f.scale - value =
        (((pyRound (value * f.scale) : ℤ) : ℚ) - value * f.scale) / f.scale := by
      field_simp
      ring
    rw [hsub, abs_div, abs_of_pos hscale, div_le_iff₀ hscale]
    have habs := pyRound_abs_le (value * f.scale)
    calc |((pyRound (value * f.scale) : ℤ) : ℚ) - value * f.scale| ≤ 1 / 2 := habs
    _ = 1 / (2 * f.scale) * f.scale := by field_simp
  · intro hs hd
    rw [pyRound_int _ hd]
    field_simp

/-- Instance of `write_read_mmio_spec` at the PPT field `a` with `v = 3`:
read-back is exact. -/
theorem write_read_mmio_spec_witness :
    ∃ regs2 r, write_mmio (fun _ => 0) 'a' 3 = some regs2 ∧ read_mmio regs2 'a' = some r ∧
      |r - 3| ≤ 1 / (2 * (MMIOField.mk 1 3 0xFFFF0000).scale) ∧
      ((MMIOField.mk 1 3 0xFFFF0000).scale.den = 1 →
        ((3 : ℚ) * (MMIOField.mk 1 3 0xFFFF0000).scale).den = 1 → r = 3) :=
  write_read_mmio_spec 'a' ⟨1, 3, 0xFFFF0000⟩ (by decide) (fun _ => 0) 3
    (by rw [show ((3 : ℚ) * (MMIOField.mk 1 3 0xFFFF0000).scale) = (((3 : ℤ) : ℚ)) by norm_num,
      pyRound_intCast]; decide)
    (by rw [show ((3 : ℚ) * (MMIOField.mk 1 3 0xFFFF0000).scale) = (((3 : ℤ) : ℚ)) by norm_num,
      pyRound_intCast]; decide)

/-- Server wire responses: RESPONSE_OK is the byte `*`, RESPONSE_ERR the byte
`?` (protocol.py:61-65). -/
inductive Resp where
  | ok
  | err
deriving DecidableEq

/-- State of the server owned by `TCPDataServer`/`PLInterface` that the
configuration commands touch: the MMIO registers, the PL enable flag
(`PLInterface._enabled`), and the length of the allocated DMA output buffer in
words. -/
structure SrvState where
  regs : Regs
  enabled : Bool
  bufLen : ℕ

/-- Models the `points_per_transfer` setter (data_processing.py:42-51): a
value below 1 is clamped to 1, the PPT MMIO field is written, and the DMA
buffer is reallocated to `value * DMA_PACKET_LENGTH + 4 = value * 12 + 4`
words. -/
def set_points_per_transfer (st : SrvState) (value : ℤ) : Option SrvState :=
  let v : ℤ := if value < 1 then 1 else value
  (write_mmio st.regs 'a' ((v : ℚ))).map fun r =>
    { st with regs := r, bufLen := v.toNat * 12 + 4 }

/-- Models `TCPDataServer.change_config` (tcp_server.py:77-90) on the
one-entry dictionaries that `determine_response` builds (tcp_server.py:155):
when the PL is enabled a `PLError` is raised (`none`) before any write;
otherwise the single field is written, the PPT command `a` going through the
`points_per_transfer` setter and every other command through `write_mmio`. -/
def change_config (st : SrvState) (cmd : Char) (value : ℤ) : Option SrvState :=
  if st.enabled then none
  else if cmd = 'a' then set_points_per_transfer st value
  else (write_mmio st.regs cmd ((value : ℚ))).map fun r => { st with regs := r }

/-- Models the config-command branch of `TCPDataServer.determine_response`
(tcp_server.py:154-155) together with the exception handler of
`serve_one_client` (tcp_server.py:207-217): an exception out of
`change_config` is answered with the error byte `?`, the state staying as the
exception left it — which for these one-entry dictionaries is unchanged,
since both failure points (`PLError`, `ValueError`) precede any write. -/
def serve_config_command (st : SrvState) (cmd : Char) (value : ℤ) : SrvState × Resp :=
  match change_config st cmd value with
  | none => (st, Resp.err)
  | some st2 => (st2, Resp.ok)

/-- Models the flag packing of `TCPClient.send_trigger_config`
(tcp_client.py:90-97): bit 0 set when not `positive`, bit 1 when `sweep`,
bit 2 when `step`. -/
def trigger_bits (positive sweep step : Bool) : ℕ :=
  let bits : ℕ := 0
  let bits := if !positive then bits ||| 1 else bits
  let bits := if sweep then bits ||| 2 else bits
  let bits := if step then bits ||| 4 else bits
  bits

/-- Models `TCPClient.send_trigger_config` (tcp_client.py:81-98): `none` is
the `ValueError` for a trigger number other than 0 and 1; otherwise the
command character (`c` for trigger 0, `o` for trigger 1 — Python truthiness of
`trig_nr`) and the packed flags, as sent in the ASCII command. -/
def send_trigger_config (trig_nr : ℕ) (positive sweep step : Bool) : Option (Char × ℤ) :=
  if trig_nr = 0 ∨ trig_nr = 1 then
    some (if trig_nr ≠ 0 then 'o' else 'c', ((trigger_bits positive sweep step : ℕ) : ℤ))
  else none

/-- The 4-bit TRIG nibble of trigger `t` inside the TRIG register (index 2):
mask `0x0F000000` (shift 24) for trigger 0, mask `0xF0000000` (shift 28) for
trigger 1 (protocol.py:111-120). -/
def trigNibble (t : ℕ) (st : SrvState) : ℕ :=
  if t = 0 then (st.regs 2 &&& 0x0F000000) >>> 24 else (st.regs 2 &&& 0xF0000000) >>> 28

lemma trigger_bits_lt : ∀ positive sweep step : Bool, trigger_bits positive sweep step < 8 := by
  decide

/-- Glue for the trigger-config scenario: serving command `c` (trigger 0) or
`o` (trigger 1) with a nibble value `n < 16` on a disabled PL succeeds and
leaves exactly `n` in that trigger's nibble, keeping the register file
32-bit. -/
lemma serve_trigger_nibble (st : SrvState) (hen : st.enabled = false)
    (t : ℕ) (ht : t = 0 ∨ t = 1) (n : ℕ) (hn : n < 16) :
    ∃ st2, serve_config_command st (if t ≠ 0 then 'o' else 'c') ((n : ℤ)) = (st2, Resp.ok) ∧
      trigNibble t st2 = n ∧ st2.regs 2 < 2 ^ 32 ∧ st2.enabled = false := by
  have hq : ((((n : ℕ) : ℤ) : ℚ)) = (((n : ℕ) : ℚ)) := by push_cast; rfl
  rcases ht with rfl | rfl
  · have hf : MMIO_FIELD_DICT 'c' = some ⟨1, 2, 0x0F000000⟩ := by decide
    have hv : (((n : ℤ) : ℚ)) * (MMIOField.mk 1 2 0x0F000000).scale = (((n : ℤ)) : ℚ) := by
      show (((n : ℤ) : ℚ)) * 1 = _
      rw [mul_one]
    have hpr : pyRound ((((n : ℤ) : ℚ)) * (MMIOField.mk 1 2 0x0F000000).scale) = (n : ℤ) := by
      rw [hv, pyRound_intCast]
    have h0 : 0 ≤ pyRound ((((n : ℤ) : ℚ)) * (MMIOField.mk 1 2 0x0F000000).scale) := by
      rw [hpr]; exact Int.natCast_nonneg n
    have hle : pyRound ((((n : ℤ) : ℚ)) * (MMIOField.mk 1 2 0x0F000000).scale) ≤
        (((MMIOField.mk 1 2 0x0F000000).mask >>>
          trailingZeros (MMIOField.mk 1 2 0x0F000000).mask : ℕ) : ℤ) := by
      rw [hpr]
      have h15 : ((MMIOField.mk 1 2 0x0F000000).mask >>>
          trailingZeros (MMIOField.mk 1 2 0x0F000000).mask : ℕ) = 15 := by decide
      rw [h15]
      exact_mod_cast Nat.lt_succ_iff.mp hn
    obtain ⟨regs2, hw, hx, h32, -⟩ :=
      write_field_extract 'c' ⟨1, 2, 0x0F000000⟩ hf st.regs (((n : ℤ) : ℚ)) h0 hle
    refine ⟨{ st with regs := regs2 }, ?_, ?_, h32, hen⟩
    · have hc : (if (0 : ℕ) ≠ 0 then 'o' else 'c') = 'c' := by norm_num
      rw [hc]
      unfold serve_config_command change_config
      rw [hen, if_neg (by decide : ¬ (false = true)), if_neg (by decide : ¬ ('c' = 'a')), hw]
      rfl
    · show trigNibble 0 { st with regs := regs2 } = n
      unfold trigNibble
      rw [if_pos rfl]
      have hsh : trailingZeros (MMIOField.mk 1 2 0x0F000000).mask = 24 := by decide
      rw [hsh] at hx
      rw [hx, hpr, Int.toNat_natCast]
  · have hf : MMIO_FIELD_DICT 'o' = some ⟨1, 2, 0xF0000000⟩ := by decide
    have hv : (((n : ℤ) : ℚ)) * (MMIOField.mk 1 2 0xF0000000).scale = (((n : ℤ)) : ℚ) := by
      show (((n : ℤ) : ℚ)) * 1 = _
      rw [mul_one]
    have hpr : pyRound ((((n : ℤ) : ℚ)) * (MMIOField.mk 1 2 0xF0000000).scale) = (n : ℤ) := by
      rw [hv, pyRound_intCast]
    have h0 : 0 ≤ pyRound ((((n : ℤ) : ℚ)) * (MMIOField.mk 1 2 0xF0000000).scale) := by
      rw [hpr]; exact Int.natCast_nonneg n
    have hle : pyRound ((((n : ℤ) : ℚ)) * (MMIOField.mk 1 2 0xF0000000).scale) ≤
        (((MMIOField.mk 1 2 0xF0000000).mask >>>
          trailingZeros (MMIOField.mk 1 2 0xF0000000).mask : ℕ) : ℤ) := by
      rw [hpr]
      have h15 : ((MMIOField.mk 1 2 0xF0000000).mask >>>
          trailingZeros (MMIOField.mk 1 2 0xF0000000).mask : ℕ) = 15 := by decide
      rw [h15]
      exact_mod_cast Nat.lt_succ_iff.mp hn
    obtain ⟨regs2, hw, hx, h32, -⟩ :=
      write_field_extract 'o' ⟨1, 2, 0xF0000000⟩ hf st.regs (((n : ℤ) : ℚ)) h0 hle
    refine ⟨{ st with regs := regs2 }, ?_, ?_, h32, hen⟩
    · have hc : (if (1 : ℕ) ≠ 0 then 'o' else 'c') = 'o' := by norm_num
      rw [hc]
      unfold serve_config_command change_config
      rw [hen, if_neg (by decide : ¬ (false = true)), if_neg (by decide : ¬ ('o' = 'a')), hw]
      rfl
    · show trigNibble 1 { st with regs := regs2 } = n
      unfold trigNibble
      rw [if_neg (by decide : ¬ (1 = 0))]
      have hsh : trailingZeros (MMIOField.mk 1 2 0xF0000000).mask = 28 := by decide
      rw [hsh] at hx
      rw [hx, hpr, Int.toNat_natCast]

/-- C8: `send_trigger_config` packs bit 0 = not positive (active-low), bit 1 =
sweep, bit 2 = step, bit 3 = 0, and the server stores the packed value in the
4-bit TRIG nibble of that trigger; in particular (positive, sweep, no step)
leaves nibble `0b0010` and a subsequent (negative, no sweep, step) leaves
`0b0101`. -/
theorem send_trigger_config_spec (st : SrvState) (hen : st.enabled = false) :
    (∀ positive sweep step : Bool,
      trigger_bits positive sweep step =
        (if positive then 0 else 1) + (if sweep then 2 else 0) + (if step then 4 else 0) ∧
      trigger_bits positive sweep step < 8) ∧
    (∀ t : ℕ, (t = 0 ∨ t = 1) → ∀ positive sweep step : Bool,
      ∃ c v st2, send_trigger_config t positive sweep step = some (c, v) ∧
        serve_config_command st c v = (st2, Resp.ok) ∧
        trigNibble t st2 = trigger_bits positive sweep step) ∧
    ∃ st1 st2,
      send_trigger_config 0 true true false = some ('c', 2) ∧
      serve_config_command st 'c' 2 = (st1, Resp.ok) ∧ trigNibble 0 st1 = 2 ∧
      send_trigger_config 0 false false true = some ('c', 5) ∧
      serve_config_command st1 'c' 5 = (st2, Resp.ok) ∧ trigNibble 0 st2 = 5 := by
  refine ⟨by decide, ?_, ?_⟩
  · intro t ht positive sweep step
    obtain ⟨st2, hserve, hnib, -, -⟩ := serve_trigger_nibble st hen t ht
      (trigger_bits positive sweep step)
      (lt_trans (trigger_bits_lt positive sweep step) (by norm_num))
    refine ⟨if t ≠ 0 then 'o' else 'c', ((trigger_bits positive sweep step : ℕ) : ℤ),
      st2, ?_, hserve, hnib⟩
    unfold send_trigger_config
    rw [if_pos ht]
  · obtain ⟨st1, hs1, hn1, -, hen1⟩ :=
      serve_trigger_nibble st hen 0 (Or.inl rfl) 2 (by norm_num)
    obtain ⟨st2, hs2, hn2, -, -⟩ :=
      serve_trigger_nibble st1 hen1 0 (Or.inl rfl) 5 (by norm_num)
    refine ⟨st1, st2, by decide, ?_, hn1, by decide, ?_, hn2⟩
    · simpa using hs1
    · simpa using hs2

/-- Instance of `send_trigger_config_spec` on the all-zero register file with
the PL disabled. -/
theorem send_trigger_config_spec_witness :
    (∀ positive sweep step : Bool,
      trigger_bits positive sweep step =
        (if positive then 0 else 1) + (if sweep then 2 else 0) + (if step then 4 else 0) ∧
      trigger_bits positive sweep step < 8) ∧
    (∀ t : ℕ, (t = 0 ∨ t = 1) → ∀ positive sweep step : Bool,
      ∃ c v st2, send_trigger_config t positive sweep step = some (c, v) ∧
        serve_config_command (SrvState.mk (fun _ => 0) false 16) c v = (st2, Resp.ok) ∧
        trigNibble t st2 = trigger_bits positive sweep step) ∧
    ∃ st1 st2,
      send_trigger_config 0 true true false = some ('c', 2) ∧
      serve_config_command (SrvState.mk (fun _ => 0) false 16) 'c' 2 = (st1, Resp.ok) ∧
      trigNibble 0 st1 = 2 ∧
      send_trigger_config 0 false false true = some ('c', 5) ∧
      serve_config_command st1 'c' 5 = (st2, Resp.ok) ∧ trigNibble 0 st2 = 5 :=
  send_trigger_config_spec (SrvState.mk (fun _ => 0) false 16) rfl

/-- C10: a configuration-write command received while the PL enable flag is
set is answered with the error byte `?` and leaves the whole server state —
MMIO registers, enable flag and DMA buffer — unchanged, because
`change_config` raises `PLError` before performing any write. -/
theorem config_while_enabled_rejected (st : SrvState) (cmd : Char) (value : ℤ)
    (_hcmd : cmd ∈ (['g', 'p', 't', 'c', 'o', 'a', 'i'] : List Char))
    (hen : st.enabled = true) :
    serve_config_command st cmd value = (st, Resp.err) := by
  unfold serve_config_command change_config
  rw [hen]
  rfl

/-- Instance of `config_while_enabled_rejected`: dead-time write `g 5` during
an enabled PL is rejected and changes nothing. -/
theorem config_while_enabled_rejected_witness :
    serve_config_command (SrvState.mk (fun _ => 0) true 16) 'g' 5 =
      (SrvState.mk (fun _ => 0) true 16, Resp.err) :=
  config_while_enabled_rejected (SrvState.mk (fun _ => 0) true 16) 'g' 5 (by decide) rfl

/-- Models the point-collection loop of `SLVNA._fsweep` (api.py:127-142).
`points` is `self.points`, `points_done` the write cursor, `rows` the flat
contents of the matrix rows written so far (`data[0 : points_done]`), and the
list holds the successive `tcp.request_data()` responses, each one a flat list
of voltages (kept abstract in `α`). Each iteration computes
`points_received = len(voltages) // 4`, clips the packet to the remaining
`points_todo = points - points_done`, copies it at the cursor and advances;
the loop exits when the cursor reaches `points`. `none` models the loop still
waiting on data when the listed responses run out. -/
def collectPoints {α : Type} (points : ℕ) :
    List (List α) → ℕ → List α → Option (List α × ℕ)
  | [], points_done, rows =>
      if points ≤ points_done then some (rows, points_done) else none
  | voltages :: rest, points_done, rows =>
      if points ≤ points_done then some (rows, points_done)
      else
        let points_received := voltages.length / 4
        let points_todo := points - points_done
        let clipped := if points_todo < points_received then voltages.take (4 * points_todo)
          else voltages
        let received := if points_todo < points_received then points_todo else points_received
        collectPoints points rest (points_done + received) (rows ++ clipped)

lemma collectPoints_go {α : Type} (points : ℕ) (packets : List (List α))
    (hmul : ∀ p ∈ packets, p.length % 4 = 0) :
    ∀ pd rows, pd ≤ points → rows.length = 4 * pd →
      ∀ out, collectPoints points packets pd rows = some out →
        out.2 = points ∧ out.1.length = 4 * points ∧
          out.1 = rows ++ packets.join.take (4 * (points - pd)) := by
  induction packets with
  | nil =>
    intro pd rows hpd hlen out h
    unfold collectPoints at h
    split at h
    · have hout := Option.some.inj h
      have hpdeq : pd = points := le_antisymm hpd (by assumption)
      subst hpdeq
      rw [← hout]
      simp [hlen]
    · exact Option.noConfusion h
  | cons v rest ih =>
    intro pd rows hpd hlen out h
    have hv4 : v.length = 4 * (v.length / 4) := by
      have := hmul v (List.mem_cons_self v rest)
      omega
    have hmul2 : ∀ p ∈ rest, p.length % 4 = 0 := fun p hp => hmul p (List.mem_cons_of_mem v hp)
    unfold collectPoints at h
    split at h
    · have hout := Option.some.inj h
      have hpdeq : pd = points := le_antisymm hpd (by assumption)
      subst hpdeq
      rw [← hout]
      simp [hlen]
    · have hlt : pd < points := lt_of_not_le (by assumption)
      dsimp only at h
      by_cases hclip : points - pd < v.length / 4
      · rw [if_pos hclip, if_pos hclip] at h
        have htake_len : (v.take (4 * (points - pd))).length = 4 * (points - pd) := by
          simp only [List.length_take]
          omega
        have hrows2 : (rows ++ v.take (4 * (points - pd))).length = 4 * (pd + (points - pd)) := by
          rw [List.length_append, hlen, htake_len]
          ring
        obtain ⟨h1, h2, h3⟩ := ih hmul2 (pd + (points - pd)) (rows ++ v.take (4 * (points - pd)))
          (by omega) hrows2 out h
        refine ⟨h1, h2, ?_⟩
        rw [h3]
        have hz : points - (pd + (points - pd)) = 0 := by omega
        rw [hz]
        simp only [Nat.mul_zero, List.take_zero, List.append_nil, List.join_cons,
          List.append_assoc]
        congr 1
        rw [List.take_append_eq_append_take]
        have : 4 * (points - pd) - v.length = 0 := by omega
        rw [this]
        simp
      · rw [if_neg hclip, if_neg hclip] at h
        have hrows2 : (rows ++ v).length = 4 * (pd + v.length / 4) := by
          rw [List.length_append, hlen]
          omega
        obtain ⟨h1, h2, h3⟩ := ih hmul2 (pd + v.length / 4) (rows ++ v) (by omega) hrows2 out h
        refine ⟨h1, h2, ?_⟩
        rw [h3]
        simp only [List.join_cons, List.append_assoc]
        congr 1
        rw [List.take_append_eq_append_take]
        have hle4 : v.length ≤ 4 * (points - pd) := by omega
        rw [List.take_of_length_le hle4]
        congr 2
        omega

/-- C1: when the collection loop of `_fsweep` terminates on a stream of
responses that each hold a whole number of points, the cursor is exactly `N`
and the collected rows are exactly the first `N` points of the concatenated
stream, in receive order — nothing dropped, nothing duplicated, the overrun of
the last packet discarded. -/
theorem fsweep_collect_spec {α : Type} (points : ℕ) (_hN : 1 ≤ points)
    (packets : List (List α)) (hmul : ∀ p ∈ packets, p.length % 4 = 0)
    (rows : List α) (final : ℕ)
    (h : collectPoints points packets 0 [] = some (rows, final)) :
    final = points ∧ rows.length = 4 * points ∧ rows = packets.join.take (4 * points) := by
  obtain ⟨h1, h2, h3⟩ := collectPoints_go points packets hmul 0 [] (Nat.zero_le points)
    (by simp) (rows, final) h
  exact ⟨h1, h2, by simpa using h3⟩

/-- Instance of `fsweep_collect_spec`: two points requested, responses of one
point then two points; the trailing point of the second packet is discarded. -/
theorem fsweep_collect_spec_witness :
    (2 : ℕ) = 2 ∧
      ([0, 1, 2, 3, 4, 5, 6, 7] : List ℕ).length = 4 * 2 ∧
      ([0, 1, 2, 3, 4, 5, 6, 7] : List ℕ) =
        ([[0, 1, 2, 3], [4, 5, 6, 7, 8, 9, 10, 11]] : List (List ℕ)).join.take (4 * 2) :=
  fsweep_collect_spec 2 (by decide) [[0, 1, 2, 3], [4, 5, 6, 7, 8, 9, 10, 11]]
    (by decide) [0, 1, 2, 3, 4, 5, 6, 7] 2 (by decide)

/-- Models `np.linspace(start, stop, num)` (api.py:161) over exact rationals:
`num` evenly spaced samples from `start` to `stop` inclusive; numpy computes
`start + k·step` with `step = (stop − start)/(num − 1)` and overwrites the
last sample with `stop` exactly; a single sample is just `start`. -/
def np_linspace (start stop : ℚ) (num : ℕ) : List ℚ :=
  if num = 0 then []
  else if num = 1 then [start]
  else (List.range num).map fun k =>
    if k = num - 1 then stop else start + k * ((stop - start) / ((num - 1 : ℕ) : ℚ))

/-- C9: the frequency axis of a completed sweep has length `N` and entry
`f[k] = start + k·(stop − start)/(N − 1)` for every `k < N` when `N ≥ 2`, and
is the single value `start` when `N = 1`. -/
theorem fsweep_freq_axis (start stop : ℚ) (N : ℕ) (hN : 1 ≤ N) :
    (np_linspace start stop N).length = N ∧
    (N = 1 → np_linspace start stop N = [start]) ∧
    (2 ≤ N → ∀ k, k < N →
      (np_linspace start stop N).getD k 0 =
        start + (k : ℚ) * (stop - start) / ((N : ℚ) - 1)) := by
  refine ⟨?_, ?_, ?_⟩
  · unfold np_linspace
    split_ifs with h0 h1
    · omega
    · rw [h1]
      rfl
    · simp
  · intro h1
    unfold np_linspace
    rw [if_neg (by omega), if_pos h1]
  · intro h2 k hk
    have h0 : ¬ (N = 0) := by omega
    have h1 : ¬ (N = 1) := by omega
    have hcast : ((N - 1 : ℕ) : ℚ) = (N : ℚ) - 1 := by
      rw [Nat.cast_sub hN, Nat.cast_one]
    have hne : ((N : ℚ)) - 1 ≠ 0 := by
      have : (2 : ℚ) ≤ (N : ℚ) := by exact_mod_cast h2
      linarith
    have hsome : (np_linspace start stop N)[k]? =
        some (if k = N - 1 then stop
          else start + (k : ℚ) * ((stop - start) / ((N - 1 : ℕ) : ℚ))) := by
      unfold np_linspace
      rw [if_neg h0, if_neg h1]
      simp only [List.getElem?_map, List.getElem?_range hk, Option.map_some']
    rw [List.getD_eq_getElem?_getD, hsome]
    by_cases hlast : k = N - 1
    · simp only [if_pos hlast, Option.getD_some]
      subst hlast
      have hkc : (((N - 1 : ℕ)) : ℚ) = (N : ℚ) - 1 := hcast
      rw [hkc]
      field_simp
    · simp only [if_neg hlast, Option.getD_some, hcast]
      ring

/-- Instance of `fsweep_freq_axis` at `start = 0`, `stop = 4`, `N = 3`. -/
theorem fsweep_freq_axis_witness :
    (np_linspace 0 4 3).length = 3 ∧
    ((3 : ℕ) = 1 → np_linspace 0 4 3 = [0]) ∧
    (2 ≤ (3 : ℕ) → ∀ k, k < 3 →
      (np_linspace 0 4 3).getD k 0 = 0 + (k : ℚ) * (4 - 0) / (((3 : ℕ) : ℚ) - 1)) :=
  fsweep_freq_axis 0 4 3 (by decide)

/-- The three generators driven by a frequency sweep: RF, LO and the SoC
clock. -/
inductive Gen where
  | rf
  | lo
  | clk
deriving DecidableEq

/-- The events of a `run` execution that touch the running latch or a
generator output. -/
inductive Ev where
  | setRun
  | clearRun
  | rfOn (g : Gen)
  | rfOff (g : Gen)
  | raiseErr
deriving DecidableEq

/-- Models `SLVNA.run` together with `_fsweep` (api.py:48-157) as the sequence
of latch and generator-output events of one invocation. `freqMode` is whether
`sweep_mode == "frequency"`; `failLoop` is whether the collection loop raises
(for example the `RuntimeError` of `request_data` on a malformed response).

* Non-frequency mode (api.py:63-65): clear the latch, raise
  `NotImplementedError`.
* Normal path: `_running.set()` (api.py:60); inside `_fsweep` the clock is
  turned on while the configuration is sent (api.py:91), then RF and LO
  (api.py:122-123); after the loop RF, LO and the clock are turned off
  (api.py:146-147,157); leaving the `with` blocks runs each generator's
  `stop()`, which turns its output off again (anapico.py:195-204), in reverse
  acquisition order clk, lo, rf; then `run` clears the latch (api.py:66).
* Failing loop: the `with` blocks still run `stop()` — so all outputs are
  switched off — but the exception then propagates out of `run` (api.py:62
  has no handler), and `_running` is never cleared. -/
def runTrace (freqMode failLoop : Bool) : List Ev :=
  if !freqMode then [Ev.setRun, Ev.clearRun, Ev.raiseErr]
  else if failLoop then
    [Ev.setRun, Ev.rfOn Gen.clk, Ev.rfOn Gen.rf, Ev.rfOn Gen.lo,
     Ev.rfOff Gen.clk, Ev.rfOff Gen.lo, Ev.rfOff Gen.rf, Ev.raiseErr]
  else
    [Ev.setRun, Ev.rfOn Gen.clk, Ev.rfOn Gen.rf, Ev.rfOn Gen.lo,
     Ev.rfOff Gen.rf, Ev.rfOff Gen.lo, Ev.rfOff Gen.clk,
     Ev.rfOff Gen.clk, Ev.rfOff Gen.lo, Ev.rfOff Gen.rf, Ev.clearRun]

/-- The value of the running latch after a list of events, starting from
`init`. -/
def runningAfter (init : Bool) : List Ev → Bool
  | [] => init
  | Ev.setRun :: es => runningAfter true es
  | Ev.clearRun :: es => runningAfter false es
  | _ :: es => runningAfter init es

/-- Whether every `rfOn` event of the list happens while the running latch is
set (`r` is the latch value entering the list). -/
def onsWhileRunning (r : Bool) : List Ev → Bool
  | [] => true
  | Ev.setRun :: es => onsWhileRunning true es
  | Ev.clearRun :: es => onsWhileRunning false es
  | Ev.rfOn _ :: es => r && onsWhileRunning r es
  | _ :: es => onsWhileRunning r es

/-- Whether every `clearRun` event of the list happens while all three
generator outputs are off (the three flags track which outputs are on). -/
def clearOnlyAfterOff (onRf onLo onClk : Bool) : List Ev → Bool
  | [] => true
  | Ev.rfOn Gen.rf :: es => clearOnlyAfterOff true onLo onClk es
  | Ev.rfOn Gen.lo :: es => clearOnlyAfterOff onRf true onClk es
  | Ev.rfOn Gen.clk :: es => clearOnlyAfterOff onRf onLo true es
  | Ev.rfOff Gen.rf :: es => clearOnlyAfterOff false onLo onClk es
  | Ev.rfOff Gen.lo :: es => clearOnlyAfterOff onRf false onClk es
  | Ev.rfOff Gen.clk :: es => clearOnlyAfterOff onRf onLo false es
  | Ev.clearRun :: es => !onRf && !onLo && !onClk && clearOnlyAfterOff onRf onLo onClk es
  | _ :: es => clearOnlyAfterOff onRf onLo onClk es

/-- C7 fails as stated: when the sweep terminates by an error in the
collection loop, the generators are all switched off by the scoped cleanup —
the safety half of the claim holds — but the running latch is never cleared:
it is still set when `run` re-raises, so the flag is not cleared after the
outputs are disabled on the error path. -/
theorem run_running_flag_counterexample :
    onsWhileRunning false (runTrace true true) = true ∧
    clearOnlyAfterOff false false false (runTrace true true) = true ∧
    runningAfter false (runTrace true true) = true := by
  decide

/-- C7 amended: in every invocation of `run`, every generator output is
enabled only while the running latch is set, and the latch is cleared only
when all outputs are off; on normal termination the latch ends cleared, but
when the sweep terminates by an error the latch is never cleared and stays
set (the outputs are still all disabled by the scoped cleanup). -/
theorem run_running_flag_spec :
    ∀ freqMode failLoop : Bool,
      onsWhileRunning false (runTrace freqMode failLoop) = true ∧
      clearOnlyAfterOff false false false (runTrace freqMode failLoop) = true ∧
      (failLoop = false → runningAfter false (runTrace freqMode failLoop) = false) ∧
      (freqMode = true → failLoop = true →
        runningAfter false (runTrace freqMode failLoop) = true) := by
  decide

/-- Instance of `run_running_flag_spec` for a normal frequency sweep. -/
theorem run_running_flag_spec_witness :
    onsWhileRunning false (runTrace true false) = true ∧
    runningAfter false (runTrace true false) = false :=
  ⟨(run_running_flag_spec true false).1, (run_running_flag_spec true false).2.2.1 rfl⟩

/-- Program counter of the producer thread running `DataQueue.keep_fetching`
(data_processing.py:243-280). `top` is the `while not exit` check (248)
together with the `fetch` check (250); `waiting` the inner wait loop (253);
`fetching` the `fetch_func()` call with its `except DMANotAllowed` clause and
the length check (261-268); `putting` one iteration of the enqueue `for` loop
(269-276); `retNormal` the return through line 279-280; `crashUnbound` the
thread killed by the `UnboundLocalError` that line 267 raises when `new` was
never bound (first fetch failed); `crashValue` the thread killed by the
`ValueError` of line 268. -/
inductive PPC where
  | top
  | waiting
  | fetching
  | putting
  | retNormal
  | crashUnbound
  | crashValue
deriving DecidableEq

/-- Program counter of the server thread inside `TCPDataServer.start_dma`
(tcp_server.py:108-124) and the `pause_dma` (126-132) it calls: clear `fetch`
(128), wait on `paused` (131), disable the PL (132), flush the queue (118),
write the PL enable bit (121), set `fetch` (122). `sdone` is the server idle
between commands. `verify_config` (112) is taken as passing; a failing
verification would abort before any of these steps. -/
inductive SPC where
  | sdone
  | clearFetch
  | waitPaused
  | disablePL
  | flushQ
  | enablePL
  | setFetch
deriving DecidableEq

/-- Shared state of the two threads: the `fetch`, `paused`, `exit` events of
`DataQueue` (data_processing.py:217-227), the PL enable flag
(`PLInterface._enabled`), the queue contents (a list of 4-tuples, oldest
first), the two program counters, the producer's local variable `new`
(`newVar`), the not-yet-enqueued tail of the current block (`pending`), and
how many times `fetch_func` has been called (`fetchCount`, indexing the
oracle). -/
structure DQState where
  fetch : Bool
  paused : Bool
  exitFlag : Bool
  enabled : Bool
  queue : List (List ℚ)
  ppc : PPC
  newVar : Option (List ℚ)
  pending : List ℚ
  spc : SPC
  fetchCount : ℕ
deriving DecidableEq

/-- Queue capacity: `Queue(2 ** MAXSIZE_BITS - 1)` with `MAXSIZE_BITS = 16`
(data_processing.py:208-218). -/
def QUEUE_MAXSIZE : ℕ := 2 ^ 16 - 1

/-- One step of the producer thread (`keep_fetching`, with `fetch_func` being
`PLInterface.get_data`). The oracle gives the block returned by the DMA for
the k-th call, `none` standing for the `RuntimeError` that becomes
`DMANotAllowed` (data_processing.py:97-99); `get_data` also raises
`DMANotAllowed` by itself whenever the PL is not enabled
(data_processing.py:78-79). Each step bundles consecutive actions of this
thread up to its next interaction with the shared variables; crucially, the
`except DMANotAllowed` clause at 263-264 only logs and falls through, so
execution continues at line 267 with `new` still holding the previous block —
or unbound, when no fetch ever succeeded. On a full queue (272-276) the
failed point is dropped, `fetch` is cleared and `paused` is set, and the `for`
loop continues with the next point. -/
def pstep (oracle : ℕ → Option (List ℚ)) (s : DQState) : DQState :=
  match s.ppc with
  | PPC.top =>
      if s.exitFlag then { s with paused := true, ppc := PPC.retNormal }
      else if !s.fetch then { s with paused := true, ppc := PPC.waiting }
      else { s with ppc := PPC.fetching }
  | PPC.waiting =>
      if s.exitFlag then { s with paused := true, ppc := PPC.retNormal }
      else if s.fetch then { s with paused := false, ppc := PPC.fetching }
      else s
  | PPC.fetching =>
      let res := if s.enabled then oracle s.fetchCount else none
      let s2 := { s with fetchCount := s.fetchCount + 1 }
      match res with
      | some b =>
          if b.length % 4 ≠ 0 then { s2 with newVar := some b, ppc := PPC.crashValue }
          else { s2 with newVar := some b, pending := b, ppc := PPC.putting }
      | none =>
          match s2.newVar with
          | none => { s2 with ppc := PPC.crashUnbound }
          | some prev =>
              if prev.length % 4 ≠ 0 then { s2 with ppc := PPC.crashValue }
              else { s2 with pending := prev, ppc := PPC.putting }
  | PPC.putting =>
      match s.pending with
      | [] => { s with ppc := PPC.top }
      | _ :: _ =>
          if s.queue.length < QUEUE_MAXSIZE then
            { s with queue := s.queue ++ [s.pending.take 4], pending := s.pending.drop 4 }
          else
            { s with fetch := false, paused := true, pending := s.pending.drop 4 }
  | _ => s

/-- One step of the server thread inside `start_dma`/`pause_dma`. -/
def sstep (s : DQState) : DQState :=
  match s.spc with
  | SPC.clearFetch => { s with fetch := false, spc := SPC.waitPaused }
  | SPC.waitPaused => if s.paused then { s with spc := SPC.disablePL } else s
  | SPC.disablePL => { s with enabled := false, spc := SPC.flushQ }
  | SPC.flushQ => { s with queue := [], spc := SPC.enablePL }
  | SPC.enablePL => { s with enabled := true, spc := SPC.setFetch }
  | SPC.setFetch => { s with fetch := true, spc := SPC.sdone }
  | SPC.sdone => s

/-- Scheduler actions: a producer step, a server step, the client command
`r1` reaching an idle server and entering `start_dma`
(tcp_server.py:152-153, 101, 108), and `TCPDataServer.stop` setting the
`exit` event (tcp_server.py:237). -/
inductive Act where
  | prod
  | srv
  | srvStart
  | setExit
deriving DecidableEq

/-- One scheduled step of the whole system. -/
def stepAct (oracle : ℕ → Option (List ℚ)) (s : DQState) : Act → DQState
  | Act.prod => pstep oracle s
  | Act.srv => sstep s
  | Act.srvStart => if s.spc = SPC.sdone then { s with spc := SPC.clearFetch } else s
  | Act.setExit => { s with exitFlag := true }

/-- Run of the system under an explicit schedule, one action at a time. -/
def runSched (oracle : ℕ → Option (List ℚ)) : List Act → DQState → DQState
  | [], s => s
  | a :: rest, s => runSched oracle rest (stepAct oracle s a)

/-- Initial state: `DataQueue.__init__` clears `fetch`, sets `paused`, clears
`exit` (data_processing.py:217-227); the PL starts disabled
(data_processing.py:32); the queue is empty and the producer thread starts at
the top of its loop. -/
def initDQ : DQState :=
  { fetch := false, paused := true, exitFlag := false, enabled := false,
    queue := [], ppc := PPC.top, newVar := none, pending := [], spc := SPC.sdone,
    fetchCount := 0 }

lemma runSched_append (oracle : ℕ → Option (List ℚ)) (l1 l2 : List Act) (s : DQState) :
    runSched oracle (l1 ++ l2) s = runSched oracle l2 (runSched oracle l1 s) := by
  induction l1 generalizing s with
  | nil => rfl
  | cons a rest ih => exact ih (stepAct oracle s a)

/-- Fetches always fail (the DMA `RuntimeError` path, e.g. right after a PL
reset). -/
def oracleNone : ℕ → Option (List ℚ) := fun _ => none

/-- The first fetch returns one point, every later fetch fails. -/
def oracleOnce : ℕ → Option (List ℚ) := fun k => if k = 0 then some [1, 2, 3, 4] else none

/-- Schedule: the producer parks in the wait loop, the server runs one full
`start_dma`, the producer resumes (clearing `paused`) and performs its first
fetch, which raises `DMANotAllowed`. -/
def schedCrash : List Act :=
  [Act.prod, Act.srvStart, Act.srv, Act.srv, Act.srv, Act.srv, Act.srv, Act.srv,
   Act.prod, Act.prod]

/-- Schedule: the server runs `start_dma`; the producer fetches one block and
enqueues it; the next fetch raises `DMANotAllowed` and the loop body runs
again on the stale `new`. -/
def schedDup : List Act :=
  [Act.srvStart, Act.srv, Act.srv, Act.srv, Act.srv, Act.srv, Act.srv,
   Act.prod, Act.prod, Act.prod, Act.prod, Act.prod, Act.prod, Act.prod, Act.prod]

/-- C4 fails on the code: the `except DMANotAllowed` clause of
`keep_fetching` only logs — there is no `continue` — so execution falls
through to `len(new)`. On the very first fetch this kills the producer thread
with an `UnboundLocalError` (`new` unbound, modelled by `crashUnbound`); on a
later fetch the previous block is still bound to `new` and gets enqueued a
second time: after one successful one-point fetch and one failed fetch the
queue holds the same point twice. -/
theorem keep_fetching_dma_error_fallthrough :
    ((runSched oracleNone schedCrash initDQ).ppc = PPC.crashUnbound) ∧
    ((runSched oracleOnce schedDup initDQ).fetchCount = 2 ∧
      (runSched oracleOnce schedDup initDQ).queue = [[1, 2, 3, 4], [1, 2, 3, 4]]) := by
  decide

/-- C5 fails as stated on the exceptional exit paths: when the first fetch
raises `DMANotAllowed`, the fall-through `UnboundLocalError` (see C4) kills
`keep_fetching` after it has cleared `paused` and before any `paused.set()`
runs — there is no `try/finally` around the loop — so the thread exits with
`paused` still clear and `pause_dma` would wait forever. -/
theorem keep_fetching_paused_counterexample :
    (runSched oracleNone schedCrash initDQ).ppc = PPC.crashUnbound ∧
    (runSched oracleNone schedCrash initDQ).paused = false := by
  decide

lemma pstep_retNormal_paused (oracle : ℕ → Option (List ℚ)) (s : DQState)
    (h : s.ppc = PPC.retNormal → s.paused = true) :
    (pstep oracle s).ppc = PPC.retNormal → (pstep oracle s).paused = true := by
  unfold pstep
  cases hp : s.ppc
  all_goals dsimp only
  · split_ifs <;> intro h2
    · rfl
    · exact absurd h2 (by simp)
    · exact absurd h2 (by simp)
  · split_ifs <;> intro h2
    · rfl
    · exact absurd h2 (by simp)
    · exact h h2
  · cases hres : (if s.enabled then oracle s.fetchCount else none) with
    | some b =>
        dsimp only
        split_ifs <;> intro h2 <;> exact absurd h2 (by simp)
    | none =>
        dsimp only
        cases hnv : s.newVar with
        | none => intro h2; exact absurd h2 (by simp)
        | some prev =>
            dsimp only
            split_ifs <;> intro h2 <;> exact absurd h2 (by simp)
  · cases hpend : s.pending with
    | nil => intro h2; exact absurd h2 (by simp)
    | cons x xs =>
        dsimp only
        split_ifs <;> intro h2
        · exact absurd h2 (by simp)
        · rfl
  · exact h
  · exact h
  · exact h

lemma sstep_ppc_paused (s : DQState) :
    (sstep s).ppc = s.ppc ∧ (sstep s).paused = s.paused := by
  unfold sstep
  cases hs : s.spc
  all_goals dsimp only
  · exact ⟨rfl, rfl⟩
  · exact ⟨rfl, rfl⟩
  · split
    · exact ⟨rfl, rfl⟩
    · exact ⟨rfl, rfl⟩
  · exact ⟨rfl, rfl⟩
  · exact ⟨rfl, rfl⟩
  · exact ⟨rfl, rfl⟩
  · exact ⟨rfl, rfl⟩

lemma stepAct_retNormal_paused (oracle : ℕ → Option (List ℚ)) (s : DQState) (a : Act)
    (h : s.ppc = PPC.retNormal → s.paused = true) :
    (stepAct oracle s a).ppc = PPC.retNormal → (stepAct oracle s a).paused = true := by
  cases a with
  | prod => exact pstep_retNormal_paused oracle s h
  | srv =>
      obtain ⟨h1, h2⟩ := sstep_ppc_paused s
      rw [stepAct, h1, h2]
      exact h
  | srvStart =>
      by_cases hsp : s.spc = SPC.sdone
      · simpa [stepAct, hsp] using h
      · simpa [stepAct, hsp] using h
  | setExit => simpa [stepAct] using h

lemma runSched_retNormal_paused (oracle : ℕ → Option (List ℚ)) (acts : List Act)
    (s : DQState) (h : s.ppc = PPC.retNormal → s.paused = true) :
    (runSched oracle acts s).ppc = PPC.retNormal → (runSched oracle acts s).paused = true := by
  induction acts generalizing s with
  | nil => exact h
  | cons a rest ih => exact ih _ (stepAct_retNormal_paused oracle s a h)

/-- C5 amended: on every path by which `keep_fetching` returns normally —
exit observed at the top of the loop or while waiting in the paused state —
the `paused` event is set at the moment of return; exit paths by uncaught
exceptions (the deliberate `ValueError` of line 268, or the
`UnboundLocalError` after a first-fetch `DMANotAllowed`) leave `paused` as it
was, possibly clear (see the counterexample). -/
theorem keep_fetching_normal_return_paused (oracle : ℕ → Option (List ℚ)) (acts : List Act)
    (h : (runSched oracle acts initDQ).ppc = PPC.retNormal) :
    (runSched oracle acts initDQ).paused = true :=
  runSched_retNormal_paused oracle acts initDQ (fun hc => absurd hc (by decide)) h

/-- Instance of `keep_fetching_normal_return_paused`: exit requested, producer
observes it at the top of its loop and returns with `paused` set. -/
theorem keep_fetching_normal_return_paused_witness :
    (runSched (fun _ => none) [Act.setExit, Act.prod] initDQ).paused = true :=
  keep_fetching_normal_return_paused (fun _ => none) [Act.setExit, Act.prod] (by decide)

lemma runSched_cons (oracle : ℕ → Option (List ℚ)) (a : Act) (rest : List Act)
    (s : DQState) :
    runSched oracle (a :: rest) s = runSched oracle rest (stepAct oracle s a) := rfl

lemma pstep_fetching_ok (oracle : ℕ → Option (List ℚ)) (s : DQState)
    (hp : s.ppc = PPC.fetching) (hen : s.enabled = true) (b : List ℚ)
    (hb : oracle s.fetchCount = some b) (h4 : b.length % 4 = 0) :
    pstep oracle s = { s with
                        fetchCount := s.fetchCount + 1, newVar := some b,
                        pending := b, ppc := PPC.putting } := by
  obtain ⟨f, pz, ex, en, q, pc, nv, pd, sp, fc⟩ := s
  dsimp only at hp hen hb ⊢
  subst hp hen
  unfold pstep
  dsimp only
  rw [if_pos rfl, hb]
  dsimp only
  rw [if_neg (by simp [h4])]

lemma pstep_putting_ok (oracle : ℕ → Option (List ℚ)) (s : DQState)
    (hp : s.ppc = PPC.putting) (hne : s.pending ≠ [])
    (hq : s.queue.length < QUEUE_MAXSIZE) :
    pstep oracle s =
      { s with queue := s.queue ++ [s.pending.take 4], pending := s.pending.drop 4 } := by
  obtain ⟨f, pz, ex, en, q, pc, nv, pd, sp, fc⟩ := s
  dsimp only at hp hne hq ⊢
  subst hp
  cases pd with
  | nil => exact absurd rfl hne
  | cons x xs =>
      unfold pstep
      dsimp only
      rw [if_pos hq]

lemma pstep_putting_full (oracle : ℕ → Option (List ℚ)) (s : DQState)
    (hp : s.ppc = PPC.putting) (hne : s.pending ≠ [])
    (hq : ¬ s.queue.length < QUEUE_MAXSIZE) :
    pstep oracle s = { s with fetch := false, paused := true, pending := s.pending.drop 4 } := by
  obtain ⟨f, pz, ex, en, q, pc, nv, pd, sp, fc⟩ := s
  dsimp only at hp hne hq ⊢
  subst hp
  cases pd with
  | nil => exact absurd rfl hne
  | cons x xs =>
      unfold pstep
      dsimp only
      rw [if_neg hq]

lemma runSched_puts (oracle : ℕ → Option (List ℚ)) :
    ∀ (k : ℕ) (s : DQState), s.ppc = PPC.putting →
      s.queue.length + k ≤ QUEUE_MAXSIZE → 4 * k ≤ s.pending.length →
      ∃ q2 : List (List ℚ),
        runSched oracle (List.replicate k Act.prod) s =
          { s with queue := q2, pending := s.pending.drop (4 * k) } ∧
        q2.length = s.queue.length + k := by
  intro k
  induction k with
  | zero =>
      intro s hp hq hl
      refine ⟨s.queue, ?_, by omega⟩
      simp [runSched]
  | succ k ih =>
      intro s hp hq hl
      have hlen4 : 4 ≤ s.pending.length := by omega
      have hne : s.pending ≠ [] := by
        intro hcon
        rw [hcon] at hlen4
        simp at hlen4
      have hqlt : s.queue.length < QUEUE_MAXSIZE := by omega
      rw [show List.replicate (k + 1) Act.prod = Act.prod :: List.replicate k Act.prod from rfl,
        runSched_cons]
      have hstep : stepAct oracle s Act.prod =
          { s with queue := s.queue ++ [s.pending.take 4], pending := s.pending.drop 4 } :=
        pstep_putting_ok oracle s hp hne hqlt
      rw [hstep]
      obtain ⟨q2, hrun, hlen⟩ := ih
        { s with queue := s.queue ++ [s.pending.take 4], pending := s.pending.drop 4 }
        hp (by simp; omega) (by simp [List.length_drop]; omega)
      refine ⟨q2, ?_, ?_⟩
      · rw [hrun]
        have hdd : ((s.pending.drop 4).drop (4 * k)) = s.pending.drop (4 * (k + 1)) := by
          rw [List.drop_drop]
          congr 1
          omega
        rw [show ({ s with
                      queue := s.queue ++ [s.pending.take 4],
                      pending := s.pending.drop 4 } : DQState).pending.drop (4 * k) =
            (s.pending.drop 4).drop (4 * k) from rfl, hdd]
      · rw [hlen]
        simp
        omega

lemma sstep_clearFetch (s : DQState) (h : s.spc = SPC.clearFetch) :
    sstep s = { s with fetch := false, spc := SPC.waitPaused } := by
  obtain ⟨f, pz, ex, en, q, pc, nv, pd, sp, fc⟩ := s
  dsimp only at h ⊢
  subst h
  rfl

lemma sstep_waitPaused_go (s : DQState) (h : s.spc = SPC.waitPaused) (hpz : s.paused = true) :
    sstep s = { s with spc := SPC.disablePL } := by
  obtain ⟨f, pz, ex, en, q, pc, nv, pd, sp, fc⟩ := s
  dsimp only at h hpz ⊢
  subst h hpz
  rfl

lemma sstep_disablePL (s : DQState) (h : s.spc = SPC.disablePL) :
    sstep s = { s with enabled := false, spc := SPC.flushQ } := by
  obtain ⟨f, pz, ex, en, q, pc, nv, pd, sp, fc⟩ := s
  dsimp only at h ⊢
  subst h
  rfl

lemma sstep_flushQ (s : DQState) (h : s.spc = SPC.flushQ) :
    sstep s = { s with queue := [], spc := SPC.enablePL } := by
  obtain ⟨f, pz, ex, en, q, pc, nv, pd, sp, fc⟩ := s
  dsimp only at h ⊢
  subst h
  rfl

lemma sstep_enablePL (s : DQState) (h : s.spc = SPC.enablePL) :
    sstep s = { s with enabled := true, spc := SPC.setFetch } := by
  obtain ⟨f, pz, ex, en, q, pc, nv, pd, sp, fc⟩ := s
  dsimp only at h ⊢
  subst h
  rfl

lemma stepAct_srvStart (oracle : ℕ → Option (List ℚ)) (s : DQState)
    (h : s.spc = SPC.sdone) :
    stepAct oracle s Act.srvStart = { s with spc := SPC.clearFetch } := by
  unfold stepAct
  rw [if_pos h]

/-- One DMA block of 65535 points (the largest `points_per_transfer` the
16-bit PPT field allows), all-zero voltages. -/
def blockBig : List ℚ := List.replicate (4 * 65535) 0

/-- Oracle for the stale-sample scenario: the first fetch returns a 2-point
block, the second the 65535-point block. -/
def oracleStale : ℕ → Option (List ℚ) := fun k =>
  if k = 0 then some (List.replicate 8 0)
  else if k = 1 then some blockBig
  else none

/-- Prefix of the stale-sample schedule: the producer parks in the wait loop,
the server completes a first `start_dma`, the producer resumes, fetches and
enqueues the 2-point block, and enters its second fetch. -/
def schedStalePrefix : List Act :=
  [Act.prod, Act.srvStart, Act.srv, Act.srv, Act.srv, Act.srv, Act.srv, Act.srv,
   Act.prod, Act.prod, Act.prod, Act.prod, Act.prod, Act.prod]

/-- The full stale-sample schedule: after the prefix the producer fetches the
big block and fills the queue to capacity (2 + 65533 puts); the failed put
pauses it mid-block with one point still pending; the server then runs
`start_dma` up to and including the flush; the producer's pending point lands
in the flushed queue; the server writes the PL enable bit. -/
def schedStale : List Act :=
  schedStalePrefix ++
    (Act.prod :: (List.replicate 65533 Act.prod ++
      (Act.prod :: Act.srvStart :: Act.srv :: Act.srv :: Act.srv :: Act.srv ::
        Act.prod :: Act.srv :: [])))

/-- State reached after `schedStalePrefix`: actively fetching, two points in
the queue, one successful fetch so far. -/
def stateSecondFetch : DQState :=
  { fetch := true, paused := false, exitFlag := false, enabled := true,
    queue := [[0, 0, 0, 0], [0, 0, 0, 0]], ppc := PPC.fetching,
    newVar := some [0, 0, 0, 0, 0, 0, 0, 0], pending := [], spc := SPC.sdone,
    fetchCount := 1 }

/-- State after the second fetch returned the big block. -/
def stateBigPending : DQState :=
  { stateSecondFetch with
      fetchCount := stateSecondFetch.fetchCount + 1, newVar := some blockBig,
      pending := blockBig, ppc := PPC.putting }

/-- C6 fails on the code under a reachable interleaving: when `put_nowait`
raises `Full`, the producer clears `fetch` and sets `paused` but its enqueue
`for` loop keeps running (data_processing.py:269-276), so `pause_dma` returns
while the producer still holds unenqueued points of the pre-pause block. The
schedule `schedStale` drives the system from the initial state to the instant
`start_dma` writes the PL enable bit (spc = `setFetch`, `fetch` still clear):
the queue then already holds one stale point of the previous block — it is
not empty at the instant the PL is enabled. -/
theorem start_dma_stale_queue_counterexample :
    (runSched oracleStale schedStale initDQ).fetch = false ∧
    (runSched oracleStale schedStale initDQ).enabled = true ∧
    (runSched oracleStale schedStale initDQ).spc = SPC.setFetch ∧
    (runSched oracleStale schedStale initDQ).queue = [List.replicate 4 (0 : ℚ)] := by
  have hblock : blockBig = List.replicate (4 * 65535) (0 : ℚ) := rfl
  have hlen4 : blockBig.length % 4 = 0 := by
    rw [hblock, List.length_replicate]
  have h1 : runSched oracleStale schedStalePrefix initDQ = stateSecondFetch := by decide
  have h2 : stepAct oracleStale stateSecondFetch Act.prod = stateBigPending := by
    rw [stepAct, pstep_fetching_ok oracleStale stateSecondFetch rfl rfl blockBig rfl hlen4]
    rfl
  obtain ⟨q2, h3, hq2len⟩ := runSched_puts oracleStale 65533 stateBigPending rfl
    (by rw [show stateBigPending.queue.length = 2 from rfl]
        norm_num [QUEUE_MAXSIZE])
    (by rw [show stateBigPending.pending = blockBig from rfl, hblock, List.length_replicate]
        norm_num)
  have hsp : stateBigPending.pending = blockBig := rfl
  have hdrop : stateBigPending.pending.drop (4 * 65533) = List.replicate 8 (0 : ℚ) := by
    rw [hsp, hblock, List.drop_replicate]
  rw [hdrop] at h3
  set s3 : DQState := { stateBigPending with
                          queue := q2,
                          pending := List.replicate 8 (0 : ℚ) } with hs3
  have hpend3 : s3.pending = List.replicate 8 (0 : ℚ) := rfl
  have hq2len2 : q2.length = 65535 := by
    rw [hq2len, show stateBigPending.queue.length = 2 from rfl]
  have h4 : stepAct oracleStale s3 Act.prod =
      { s3 with fetch := false, paused := true, pending := s3.pending.drop 4 } :=
    pstep_putting_full oracleStale s3 rfl
      (by rw [hpend3]; simp)
      (by rw [show s3.queue = q2 from rfl, hq2len2]
          norm_num [QUEUE_MAXSIZE])
  have hd8 : s3.pending.drop 4 = List.replicate 4 (0 : ℚ) := by
    rw [hpend3, List.drop_replicate]
  rw [hd8] at h4
  set s4 : DQState := { s3 with
                          fetch := false, paused := true,
                          pending := List.replicate 4 (0 : ℚ) } with hs4
  have hpend4 : s4.pending = List.replicate 4 (0 : ℚ) := rfl
  have h5 : stepAct oracleStale s4 Act.srvStart = { s4 with spc := SPC.clearFetch } :=
    stepAct_srvStart oracleStale s4 rfl
  set s5 : DQState := { s4 with spc := SPC.clearFetch } with hs5
  have h6 : stepAct oracleStale s5 Act.srv = { s5 with fetch := false, spc := SPC.waitPaused } :=
    sstep_clearFetch s5 rfl
  set s6 : DQState := { s5 with fetch := false, spc := SPC.waitPaused } with hs6
  have h7 : stepAct oracleStale s6 Act.srv = { s6 with spc := SPC.disablePL } :=
    sstep_waitPaused_go s6 rfl rfl
  set s7 : DQState := { s6 with spc := SPC.disablePL } with hs7
  have h8 : stepAct oracleStale s7 Act.srv = { s7 with enabled := false, spc := SPC.flushQ } :=
    sstep_disablePL s7 rfl
  set s8 : DQState := { s7 with enabled := false, spc := SPC.flushQ } with hs8
  have h9 : stepAct oracleStale s8 Act.srv = { s8 with queue := [], spc := SPC.enablePL } :=
    sstep_flushQ s8 rfl
  set s9 : DQState := { s8 with queue := [], spc := SPC.enablePL } with hs9
  have hpend9 : s9.pending = List.replicate 4 (0 : ℚ) := hpend4
  have h10 : stepAct oracleStale s9 Act.prod =
      { s9 with queue := s9.queue ++ [s9.pending.take 4], pending := s9.pending.drop 4 } :=
    pstep_putting_ok oracleStale s9 rfl
      (by rw [hpend9]; simp)
      (by rw [show s9.queue = ([] : List (List ℚ)) from rfl]
          norm_num [QUEUE_MAXSIZE])
  set s10 : DQState :=
    { s9 with queue := s9.queue ++ [s9.pending.take 4], pending := s9.pending.drop 4 }
    with hs10
  have h11 : stepAct oracleStale s10 Act.srv = { s10 with enabled := true, spc := SPC.setFetch } :=
    sstep_enablePL s10 rfl
  have hrun : runSched oracleStale schedStale initDQ =
      { s10 with enabled := true, spc := SPC.setFetch } := by
    unfold schedStale
    rw [runSched_append, h1, runSched_cons, h2, runSched_append, h3,
      runSched_cons, h4, runSched_cons, h5, runSched_cons, h6,
      runSched_cons, h7, runSched_cons, h8, runSched_cons, h9,
      runSched_cons, h10, runSched_cons, h11]
    rfl
  rw [hrun]
  refine ⟨rfl, rfl, rfl, ?_⟩
  rw [show ({ s10 with enabled := true, spc := SPC.setFetch } : DQState).queue =
      s9.queue ++ [s9.pending.take 4] from rfl]
  rw [show s9.queue = ([] : List (List ℚ)) from rfl, hpend9, List.nil_append,
    List.take_replicate]
  rfl

end SLVNA
